import Mathlib

/-!
Verification of the worker-timer protocol (kawaz/worker-timer).

The development shallowly embeds `src/createWorker.ts` and `src/index.ts`:
the main-side registry and dispatcher (`createWorkerTimer`: `nextId`,
`setTimer`, `clearTimer`, the `message` listener), the worker-side
dispatcher (`_timerWorker`), the two message channels, the native timers
living in the worker, and the module-level lazy singleton
(`getWorkerTimer` and the five bare module functions).

JavaScript `Map` objects are embedded as association lists with
insertion-order-preserving `set`, first-match `get` and key-removing
`delete`, so that "at most one entry per key" is a provable invariant
rather than a modelling artefact.  Opaque values (callback functions,
callback arguments) are embedded as natural numbers / lists of naturals;
invoking a callback is observed through an invocation log.
-/

/-- Timer identifiers allocated by the main side (`type TimerId = number`). -/
abbrev TimerId := Nat

/-- The scheduling kind discriminator (`'setTimeout' | 'setInterval'`). -/
inductive TimerKind where
  | setTimeout
  | setInterval
deriving DecidableEq, Repr

/-- The cancelling kind discriminator (`'clearTimeout' | 'clearInterval'`). -/
inductive ClearKind where
  | clearTimeout
  | clearInterval
deriving DecidableEq, Repr

/-- Main-side record of one scheduling request (`type TimerTransaction`).
`func` is the identity of the user callback (callbacks are opaque; invoking
one is observed through the invocation log), `args` the extra arguments. -/
structure TimerTransaction where
  id : TimerId
  kind : TimerKind
  func : Nat
  duration : Nat
  args : List Nat
deriving DecidableEq, Repr

/-- Messages posted from the main side to the worker (`MessageToWorker`):
`SetTimerMessage {id, type, duration}` and `ClearTimerMessage {id, type}`. -/
inductive MessageToWorker where
  | setTimer (id : TimerId) (kind : TimerKind) (duration : Nat)
  | clearTimer (id : TimerId) (kind : ClearKind)
deriving DecidableEq, Repr

/-- Messages posted from the worker to the main side (`MessageFromWorker`):
`InvokeMessage {id, type: 'invoke'}`; the listener also handles a
`{id, type: 'clear'}` shape, kept here as the `clear` constructor. -/
inductive MessageFromWorker where
  | invoke (id : TimerId)
  | clear (id : TimerId)
deriving DecidableEq, Repr

/-- The `id` field of a main-bound message. -/
def MessageFromWorker.msgId : MessageFromWorker → TimerId
  | .invoke i => i
  | .clear i => i

/-! ## JavaScript `Map` embedding -/

/-- `Map.prototype.get`: value of the first entry with the given key. -/
def mapGet {α : Type} : List (Nat × α) → Nat → Option α
  | [], _ => none
  | p :: ps, k => if p.1 = k then some p.2 else mapGet ps k

/-- `Map.prototype.set`: replace the entry in place if the key is present,
otherwise append a new entry (JS maps preserve insertion order). -/
def mapSet {α : Type} : List (Nat × α) → Nat → α → List (Nat × α)
  | [], k, v => [(k, v)]
  | p :: ps, k, v => if p.1 = k then (k, v) :: ps else p :: mapSet ps k v

/-- `Map.prototype.delete`: remove the entries with the given key. -/
def mapDelete {α : Type} : List (Nat × α) → Nat → List (Nat × α)
  | [], _ => []
  | p :: ps, k => if p.1 = k then mapDelete ps k else p :: mapDelete ps k

/-- The keys of an embedded map, in entry order. -/
def mapKeys {α : Type} (m : List (Nat × α)) : List Nat := m.map Prod.fst

@[simp]
theorem mapKeys_nil {α : Type} : mapKeys ([] : List (Nat × α)) = [] := rfl

@[simp]
theorem mapKeys_cons {α : Type} (p : Nat × α) (ps : List (Nat × α)) :
    mapKeys (p :: ps) = p.1 :: mapKeys ps := rfl

theorem mapGet_mapSet {α : Type} (m : List (Nat × α)) (k k' : Nat) (v : α) :
    mapGet (mapSet m k v) k' = if k = k' then some v else mapGet m k' := by
  induction m with
  | nil => simp [mapSet, mapGet]
  | cons p ps ih =>
    by_cases hpk : p.1 = k
    · rw [mapSet, if_pos hpk, mapGet]
      by_cases h : k = k'
      · rw [if_pos h, if_pos h]
      · rw [if_neg h, if_neg h, mapGet, if_neg (by rw [hpk]; exact h)]
    · rw [mapSet, if_neg hpk, mapGet]
      by_cases hp' : p.1 = k'
      · have hkk : ¬ k = k' := fun h => hpk (by rw [h]; exact hp')
        rw [if_pos hp', if_neg hkk, mapGet, if_pos hp']
      · rw [if_neg hp', ih, mapGet, if_neg hp']

theorem mapGet_mapDelete {α : Type} (m : List (Nat × α)) (k k' : Nat) :
    mapGet (mapDelete m k) k' = if k = k' then none else mapGet m k' := by
  induction m with
  | nil => simp [mapDelete, mapGet]
  | cons p ps ih =>
    by_cases hpk : p.1 = k
    · rw [mapDelete, if_pos hpk, ih]
      by_cases h : k = k'
      · rw [if_pos h, if_pos h]
      · rw [if_neg h, if_neg h, mapGet, if_neg (by rw [hpk]; exact h)]
    · rw [mapDelete, if_neg hpk, mapGet]
      by_cases hp' : p.1 = k'
      · have hkk : ¬ k = k' := fun h => hpk (by rw [h]; exact hp')
        rw [if_pos hp', if_neg hkk, mapGet, if_pos hp']
      · rw [if_neg hp', ih, mapGet, if_neg hp']

theorem mem_mapSet {α : Type} (m : List (Nat × α)) (k : Nat) (v : α) :
    ∀ p ∈ mapSet m k v, p = (k, v) ∨ p ∈ m := by
  induction m with
  | nil => simp [mapSet]
  | cons q qs ih =>
    by_cases hq : q.1 = k
    · intro p hp
      rcases (by simpa [mapSet, hq] using hp) with h | h
      · exact Or.inl h
      · exact Or.inr (List.mem_cons_of_mem _ h)
    · intro p hp
      rcases (by simpa [mapSet, hq] using hp) with h | h
      · exact Or.inr (h ▸ List.mem_cons_self _ _)
      · rcases ih p h with h' | h'
        · exact Or.inl h'
        · exact Or.inr (List.mem_cons_of_mem _ h')

theorem mem_mapDelete {α : Type} (m : List (Nat × α)) (k : Nat) :
    ∀ p ∈ mapDelete m k, p ∈ m := by
  induction m with
  | nil => simp [mapDelete]
  | cons q qs ih =>
    by_cases hq : q.1 = k
    · intro p hp
      exact List.mem_cons_of_mem _ (ih p (by simpa [mapDelete, hq] using hp))
    · intro p hp
      rcases (by simpa [mapDelete, hq] using hp) with h | h
      · exact h ▸ List.mem_cons_self _ _
      · exact List.mem_cons_of_mem _ (ih p h)

theorem mapGet_eq_none_iff {α : Type} (m : List (Nat × α)) (k : Nat) :
    mapGet m k = none ↔ ∀ p ∈ m, p.1 ≠ k := by
  induction m with
  | nil => simp [mapGet]
  | cons q qs ih =>
    by_cases hq : q.1 = k
    · simp [mapGet, hq]
    · simp [mapGet, hq, ih]

theorem mapKeys_mapSet_of_none {α : Type} (m : List (Nat × α)) (k : Nat) (v : α)
    (h : mapGet m k = none) : mapKeys (mapSet m k v) = mapKeys m ++ [k] := by
  induction m with
  | nil => simp [mapSet]
  | cons q qs ih =>
    by_cases hq : q.1 = k
    · rw [mapGet, if_pos hq] at h
      exact absurd h (by simp)
    · rw [mapGet, if_neg hq] at h
      rw [mapSet, if_neg hq, mapKeys_cons, mapKeys_cons, ih h, List.cons_append]

theorem mapKeys_mapSet_of_some {α : Type} (m : List (Nat × α)) (k : Nat) (v : α)
    (h : mapGet m k ≠ none) : mapKeys (mapSet m k v) = mapKeys m := by
  induction m with
  | nil => exact absurd rfl h
  | cons q qs ih =>
    by_cases hq : q.1 = k
    · rw [mapSet, if_pos hq, mapKeys_cons, mapKeys_cons, hq]
    · rw [mapGet, if_neg hq] at h
      rw [mapSet, if_neg hq, mapKeys_cons, mapKeys_cons, ih h]

theorem mapKeys_mapDelete_sublist {α : Type} (m : List (Nat × α)) (k : Nat) :
    (mapKeys (mapDelete m k)).Sublist (mapKeys m) := by
  induction m with
  | nil => simp [mapDelete]
  | cons q qs ih =>
    by_cases hq : q.1 = k
    · rw [mapDelete, if_pos hq, mapKeys_cons]
      exact ih.trans (List.sublist_cons_self _ _)
    · rw [mapDelete, if_neg hq, mapKeys_cons, mapKeys_cons]
      exact ih.cons₂ _

theorem nodup_mapKeys_mapSet {α : Type} (m : List (Nat × α)) (k : Nat) (v : α)
    (h : (mapKeys m).Nodup) : (mapKeys (mapSet m k v)).Nodup := by
  by_cases hg : mapGet m k = none
  · have hk : k ∉ mapKeys m := by
      intro hmem
      rcases List.mem_map.1 hmem with ⟨p, hp, hpk⟩
      exact (mapGet_eq_none_iff m k).1 hg p hp hpk
    rw [mapKeys_mapSet_of_none m k v hg]
    exact List.Nodup.append h (List.nodup_singleton k)
      (by simpa [List.disjoint_singleton] using hk)
  · rw [mapKeys_mapSet_of_some m k v hg]
    exact h

theorem nodup_mapKeys_mapDelete {α : Type} (m : List (Nat × α)) (k : Nat)
    (h : (mapKeys m).Nodup) : (mapKeys (mapDelete m k)).Nodup :=
  h.sublist (mapKeys_mapDelete_sublist m k)

theorem mapDelete_of_get_none {α : Type} (m : List (Nat × α)) (k : Nat)
    (h : mapGet m k = none) : mapDelete m k = m := by
  induction m with
  | nil => rfl
  | cons q qs ih =>
    by_cases hq : q.1 = k
    · rw [mapGet, if_pos hq] at h
      exact absurd h (by simp)
    · rw [mapGet, if_neg hq] at h
      rw [mapDelete, if_neg hq, ih h]

theorem mapDelete_mapDelete {α : Type} (m : List (Nat × α)) (k : Nat) :
    mapDelete (mapDelete m k) k = mapDelete m k :=
  mapDelete_of_get_none _ _ (by rw [mapGet_mapDelete]; simp)

/-! ## System state

One `createWorkerTimer` instance together with its worker, embedded as a
single record: the main-side closure state (`idMap`, the `seq` counter of
`nextId`), the worker-side closure state (`idMap` from `TimerId` to native
handle, plus the set of live native timers and the native handle counter),
the two ordered message channels, an invocation log observing calls of the
user callbacks, and the ghost list of ids returned by `setTimer`. -/

/-- Closure state of the main side of one `createWorkerTimer` instance. -/
structure MainState where
  idMap : List (TimerId × TimerTransaction)
  seq : Nat
  returnedIds : List TimerId
deriving DecidableEq, Repr

/-- One live native timer inside the worker: the `TimerId` and kind captured
by the callback closure passed to the native `setTimeout`/`setInterval`. -/
structure NativeTimer where
  timerId : TimerId
  kind : TimerKind
deriving DecidableEq, Repr

/-- Closure state of the worker side (`_timerWorker`): `idMap` maps a
`TimerId` to the native handle, `native` maps a live native handle to its
timer, `nextHandle` models the native scheduler's handle allocation. -/
structure WorkerState where
  idMap : List (TimerId × Nat)
  native : List (Nat × NativeTimer)
  nextHandle : Nat
deriving DecidableEq, Repr

/-- The whole system: both sides, both channels (ordered, reliable), the
invocation log (entries `(id, func, args)` recording one user-callback
invocation each), in one record. -/
structure SysState where
  main : MainState
  worker : WorkerState
  toWorker : List MessageToWorker
  toMain : List MessageFromWorker
  log : List (TimerId × Nat × List Nat)
deriving DecidableEq, Repr

/-- The state of a freshly created instance: empty registries, empty
channels, `seq = 0`. -/
def initSys : SysState :=
  { main := { idMap := [], seq := 0, returnedIds := [] }
  , worker := { idMap := [], native := [], nextHandle := 0 }
  , toWorker := []
  , toMain := []
  , log := [] }

/-! ## Main-side operations (from `createWorkerTimer` in `src/index.ts`) -/

/-- `nextId`: `let seq = 0; return () => seq++`. -/
def nextId (m : MainState) : TimerId × MainState :=
  (m.seq, { m with seq := m.seq + 1 })

/-- `setTimer(type, func, duration = 0, ...args)`: allocate `id = nextId()`,
store the transaction (whose stored `func` is, for `setTimeout`, the wrapper
that also deletes the map entry after calling `func` — the wrapper is
determined by `kind`, so the record keeps the user callback identity and the
handler below replays the wrapper's deletion), post
`{id, type, duration}` to the worker, return `id`.  The ghost field
`returnedIds` records the returned id. -/
def setTimer (kind : TimerKind) (func : Nat) (duration : Nat) (args : List Nat)
    (s : SysState) : TimerId × SysState :=
  let r := nextId s.main
  let id := r.1
  let main1 := { r.2 with
    idMap := mapSet r.2.idMap id ⟨id, kind, func, duration, args⟩
    returnedIds := r.2.returnedIds ++ [id] }
  (id, { s with main := main1, toWorker := s.toWorker ++ [.setTimer id kind duration] })

/-- `clearTimer(type, id)`: post `{id, type}` to the worker, then
`idMap.delete(id)`. -/
def clearTimer (kind : ClearKind) (id : TimerId) (s : SysState) : SysState :=
  { s with
    toWorker := s.toWorker ++ [.clearTimer id kind]
    main := { s.main with idMap := mapDelete s.main.idMap id } }

/-- The main-side `message` listener: look up `idMap.get(id)`; if absent,
return; on `'invoke'` call `transaction.func(...transaction.args)` (for a
`setTimeout` transaction the stored func is the wrapper, which invokes the
user callback and then deletes the entry for the captured `id`, i.e.
`transaction.id`); on `'clear'` delete the entry for the message id. -/
def mainOnMessage (s : SysState) (m : MessageFromWorker) : SysState :=
  match mapGet s.main.idMap m.msgId with
  | none => s
  | some t =>
    match m with
    | .invoke _ =>
      let s1 := { s with log := s.log ++ [(t.id, t.func, t.args)] }
      match t.kind with
      | .setTimeout =>
        { s1 with main := { s1.main with idMap := mapDelete s1.main.idMap t.id } }
      | .setInterval => s1
    | .clear i =>
      { s with main := { s.main with idMap := mapDelete s.main.idMap i } }

/-! ## Worker-side operations (from `_timerWorker` in `src/index.ts`) -/

/-- The worker's `message` listener.  On a set message: call the native
primitive of the message's kind with the closure callback (captured as a
`NativeTimer` record: fire posts `invoke {id}` and, for `setTimeout`, also
deletes `idMap`'s entry for `id`), then `idMap.set(id, nativeId)`.  On a
clear message: cancel the native timer whose handle is `idMap.get(id)` (a
missing handle cancels nothing), then `idMap.delete(id)`. -/
def workerOnMessage (w : WorkerState) : MessageToWorker → WorkerState
  | .setTimer id kind _duration =>
    let h := w.nextHandle
    { idMap := mapSet w.idMap id h
      native := mapSet w.native h ⟨id, kind⟩
      nextHandle := h + 1 }
  | .clearTimer id _kind =>
    let native1 :=
      match mapGet w.idMap id with
      | some h => mapDelete w.native h
      | none => w.native
    { w with idMap := mapDelete w.idMap id, native := native1 }

/-- A native timer with handle `h` fires inside the worker (if live): the
scheduled callback posts `{id, type: 'invoke'}` to the main side and, for a
`setTimeout` timer, additionally deletes the worker `idMap` entry for the
captured `id`; a one-shot native timer is consumed by firing, a repeating
one stays live. -/
def nativeFire (h : Nat) (s : SysState) : SysState :=
  match mapGet s.worker.native h with
  | none => s
  | some nt =>
    let toMain1 := s.toMain ++ [.invoke nt.timerId]
    match nt.kind with
    | .setTimeout =>
      { s with
        toMain := toMain1
        worker := { s.worker with
          idMap := mapDelete s.worker.idMap nt.timerId
          native := mapDelete s.worker.native h } }
    | .setInterval => { s with toMain := toMain1 }

/-! ## The event system -/

/-- One atomic event of the system: a public API call on the main side, an
in-order delivery of the head message of either channel, or a native timer
firing in the worker.  Deliveries and fires are chosen nondeterministically
by the trace, modelling every possible interleaving. -/
inductive Act where
  | set (kind : TimerKind) (func : Nat) (duration : Nat) (args : List Nat)
  | clear (kind : ClearKind) (id : TimerId)
  | deliverToWorker
  | deliverToMain
  | fire (h : Nat)
deriving DecidableEq, Repr

/-- Effect of one event on the system state.  Delivering from an empty
channel and firing a dead handle do nothing. -/
def step (s : SysState) : Act → SysState
  | .set kind func duration args => (setTimer kind func duration args s).2
  | .clear kind id => clearTimer kind id s
  | .deliverToWorker =>
    match s.toWorker with
    | [] => s
    | m :: rest => { s with toWorker := rest, worker := workerOnMessage s.worker m }
  | .deliverToMain =>
    match s.toMain with
    | [] => s
    | m :: rest => mainOnMessage { s with toMain := rest } m
  | .fire h => nativeFire h s

/-- Run a trace of events from a state. -/
def run (s : SysState) (as : List Act) : SysState :=
  as.foldl step s

theorem run_nil (s : SysState) : run s [] = s := rfl

theorem run_cons (s : SysState) (a : Act) (as : List Act) :
    run s (a :: as) = run (step s a) as := rfl

theorem run_append (s : SysState) (as bs : List Act) :
    run s (as ++ bs) = run (run s as) bs :=
  List.foldl_append ..

/-! ## The reachable-state invariant -/

/-- Invariant of one instance, preserved by every event: every stored main
transaction carries its own key as `id`, every id the main side ever
allocated (map keys, logged invocations) is below the `seq` counter, both
registries have at most one entry per `TimerId` (`Nodup` keys), and the ids
returned so far are exactly `0, 1, ..., seq - 1` in order. -/
def SysInv (s : SysState) : Prop :=
  (∀ p ∈ s.main.idMap, p.2.id = p.1 ∧ p.1 < s.main.seq) ∧
  (∀ e ∈ s.log, e.1 < s.main.seq) ∧
  (mapKeys s.main.idMap).Nodup ∧
  (mapKeys s.worker.idMap).Nodup ∧
  s.main.returnedIds = List.range s.main.seq

theorem sysInv_initSys : SysInv initSys := by
  refine ⟨?_, ?_, ?_, ?_, ?_⟩ <;> simp [initSys, SysInv]

theorem mem_of_mapGet {α : Type} (m : List (Nat × α)) (k : Nat) (v : α)
    (h : mapGet m k = some v) : (k, v) ∈ m := by
  induction m with
  | nil => simp [mapGet] at h
  | cons q qs ih =>
    by_cases hq : q.1 = k
    · rw [mapGet, if_pos hq] at h
      have hv : q.2 = v := by injection h
      have hqkv : q = (k, v) := by
        cases q
        simp only at hq hv
        rw [hq, hv]
      exact List.mem_cons.2 (Or.inl hqkv.symm)
    · rw [mapGet, if_neg hq] at h
      exact List.mem_cons_of_mem _ (ih h)

theorem sysInv_setTimer (k : TimerKind) (f d : Nat) (ar : List Nat) (s : SysState)
    (hInv : SysInv s) : SysInv (setTimer k f d ar s).2 := by
  obtain ⟨h1, h2, h3, h4, h5⟩ := hInv
  simp only [SysInv, setTimer, nextId]
  refine ⟨?_, ?_, ?_, h4, ?_⟩
  · intro p hp
    rcases mem_mapSet _ _ _ p hp with h | h
    · rw [h]
      exact ⟨rfl, Nat.lt_succ_self _⟩
    · obtain ⟨hid, hlt⟩ := h1 p h
      exact ⟨hid, Nat.lt_succ_of_lt hlt⟩
  · intro e he
    exact Nat.lt_succ_of_lt (h2 e he)
  · exact nodup_mapKeys_mapSet _ _ _ h3
  · rw [h5, List.range_succ]

theorem sysInv_clearTimer (ck : ClearKind) (i : TimerId) (s : SysState)
    (hInv : SysInv s) : SysInv (clearTimer ck i s) := by
  obtain ⟨h1, h2, h3, h4, h5⟩ := hInv
  exact ⟨fun p hp => h1 p (mem_mapDelete _ _ p hp), h2,
    nodup_mapKeys_mapDelete _ _ h3, h4, h5⟩

theorem sysInv_mainOnMessage (s : SysState) (m : MessageFromWorker)
    (hInv : SysInv s) : SysInv (mainOnMessage s m) := by
  obtain ⟨h1, h2, h3, h4, h5⟩ := hInv
  unfold mainOnMessage
  cases hg : mapGet s.main.idMap m.msgId with
  | none =>
    dsimp only
    exact ⟨h1, h2, h3, h4, h5⟩
  | some t =>
    dsimp only
    obtain ⟨hid, hlt⟩ := h1 _ (mem_of_mapGet _ _ _ hg)
    have hlog : ∀ e ∈ s.log ++ [(t.id, t.func, t.args)], e.1 < s.main.seq := by
      intro e he
      rcases List.mem_append.1 he with h | h
      · exact h2 e h
      · rw [List.mem_singleton] at h
        rw [h]
        exact hid ▸ hlt
    cases m with
    | invoke i =>
      dsimp only
      cases t.kind with
      | setTimeout =>
        dsimp only
        exact ⟨fun p hp => h1 p (mem_mapDelete _ _ p hp), hlog,
          nodup_mapKeys_mapDelete _ _ h3, h4, h5⟩
      | setInterval =>
        dsimp only
        exact ⟨h1, hlog, h3, h4, h5⟩
    | clear i =>
      dsimp only
      exact ⟨fun p hp => h1 p (mem_mapDelete _ _ p hp), h2,
        nodup_mapKeys_mapDelete _ _ h3, h4, h5⟩

theorem nodup_workerOnMessage (w : WorkerState) (m : MessageToWorker)
    (h : (mapKeys w.idMap).Nodup) : (mapKeys (workerOnMessage w m).idMap).Nodup := by
  cases m with
  | setTimer i k d => exact nodup_mapKeys_mapSet _ _ _ h
  | clearTimer i k => exact nodup_mapKeys_mapDelete _ _ h

theorem sysInv_nativeFire (h : Nat) (s : SysState) (hInv : SysInv s) :
    SysInv (nativeFire h s) := by
  obtain ⟨h1, h2, h3, h4, h5⟩ := hInv
  unfold nativeFire
  cases hg : mapGet s.worker.native h with
  | none =>
    dsimp only
    exact ⟨h1, h2, h3, h4, h5⟩
  | some nt =>
    dsimp only
    cases nt.kind with
    | setTimeout =>
      dsimp only
      exact ⟨h1, h2, h3, nodup_mapKeys_mapDelete _ _ h4, h5⟩
    | setInterval =>
      dsimp only
      exact ⟨h1, h2, h3, h4, h5⟩

theorem sysInv_step (s : SysState) (a : Act) (hInv : SysInv s) : SysInv (step s a) := by
  cases a with
  | set k f d ar => exact sysInv_setTimer k f d ar s hInv
  | clear ck i => exact sysInv_clearTimer ck i s hInv
  | deliverToWorker =>
    unfold step
    cases hq : s.toWorker with
    | nil => exact hInv
    | cons m rest =>
      obtain ⟨h1, h2, h3, h4, h5⟩ := hInv
      exact ⟨h1, h2, h3, nodup_workerOnMessage s.worker m h4, h5⟩
  | deliverToMain =>
    unfold step
    cases hq : s.toMain with
    | nil => exact hInv
    | cons m rest =>
      exact sysInv_mainOnMessage { s with toMain := rest } m hInv
  | fire h => exact sysInv_nativeFire h s hInv

theorem sysInv_run (as : List Act) (s : SysState) (hInv : SysInv s) :
    SysInv (run s as) := by
  induction as generalizing s with
  | nil => exact hInv
  | cons a as ih => exact ih _ (sysInv_step s a hInv)

theorem sysInv_reach (as : List Act) : SysInv (run initSys as) :=
  sysInv_run as initSys sysInv_initSys

/-! ## Frame lemmas: which events touch which registry -/

theorem mainOnMessage_worker (s : SysState) (m : MessageFromWorker) :
    (mainOnMessage s m).worker = s.worker := by
  unfold mainOnMessage
  cases hg : mapGet s.main.idMap m.msgId with
  | none => rfl
  | some t =>
    dsimp only
    cases m with
    | invoke i =>
      dsimp only
      cases t.kind <;> rfl
    | clear i => rfl

theorem mainOnMessage_toWorker (s : SysState) (m : MessageFromWorker) :
    (mainOnMessage s m).toWorker = s.toWorker := by
  unfold mainOnMessage
  cases hg : mapGet s.main.idMap m.msgId with
  | none => rfl
  | some t =>
    dsimp only
    cases m with
    | invoke i =>
      dsimp only
      cases t.kind <;> rfl
    | clear i => rfl

theorem mainOnMessage_seq (s : SysState) (m : MessageFromWorker) :
    (mainOnMessage s m).main.seq = s.main.seq := by
  unfold mainOnMessage
  cases hg : mapGet s.main.idMap m.msgId with
  | none => rfl
  | some t =>
    dsimp only
    cases m with
    | invoke i =>
      dsimp only
      cases t.kind <;> rfl
    | clear i => rfl

theorem nativeFire_main (h : Nat) (s : SysState) :
    (nativeFire h s).main = s.main := by
  unfold nativeFire
  cases hg : mapGet s.worker.native h with
  | none => rfl
  | some nt =>
    dsimp only
    cases nt.kind <;> rfl

theorem nativeFire_log (h : Nat) (s : SysState) :
    (nativeFire h s).log = s.log := by
  unfold nativeFire
  cases hg : mapGet s.worker.native h with
  | none => rfl
  | some nt =>
    dsimp only
    cases nt.kind <;> rfl

theorem step_deliverToWorker_main (s : SysState) :
    (step s .deliverToWorker).main = s.main := by
  unfold step
  cases hq : s.toWorker <;> rfl

theorem step_fire_main (s : SysState) (h : Nat) :
    (step s (.fire h)).main = s.main :=
  nativeFire_main h s

theorem step_set_worker (s : SysState) (k : TimerKind) (f d : Nat) (ar : List Nat) :
    (step s (.set k f d ar)).worker = s.worker := rfl

theorem step_clear_worker (s : SysState) (ck : ClearKind) (i : TimerId) :
    (step s (.clear ck i)).worker = s.worker := rfl

theorem step_deliverToMain_worker (s : SysState) :
    (step s .deliverToMain).worker = s.worker := by
  unfold step
  cases hq : s.toMain with
  | nil => rfl
  | cons m rest => exact mainOnMessage_worker _ m

/-! ## Claim theorems -/

/-- Claim C1: in every reachable state each registry holds at most one entry
per `TimerId` (so an id with an active main-side `Transaction` has at most one
worker-side `NativeHandle` and vice versa), and each registry is updated only
by its own side's events — worker-side events (message delivery to the
worker, native fires) never change the main `idMap`, and main-side events
(API calls, delivery to the main side) never change the worker `idMap`. -/
theorem C1_registry_lockstep :
    (∀ as : List Act,
      (mapKeys (run initSys as).main.idMap).Nodup ∧
      (mapKeys (run initSys as).worker.idMap).Nodup) ∧
    (∀ s : SysState, (step s .deliverToWorker).main.idMap = s.main.idMap) ∧
    (∀ (s : SysState) (h : Nat), (step s (.fire h)).main.idMap = s.main.idMap) ∧
    (∀ (s : SysState) (k : TimerKind) (f d : Nat) (ar : List Nat),
      (step s (.set k f d ar)).worker.idMap = s.worker.idMap) ∧
    (∀ (s : SysState) (ck : ClearKind) (i : TimerId),
      (step s (.clear ck i)).worker.idMap = s.worker.idMap) ∧
    (∀ s : SysState, (step s .deliverToMain).worker.idMap = s.worker.idMap) := by
  refine ⟨?_, ?_, ?_, ?_, ?_, ?_⟩
  · intro as
    obtain ⟨_, _, h3, h4, _⟩ := sysInv_reach as
    exact ⟨h3, h4⟩
  · intro s
    rw [step_deliverToWorker_main]
  · intro s h
    rw [step_fire_main]
  · intro s k f d ar
    rw [step_set_worker]
  · intro s ck i
    rw [step_clear_worker]
  · intro s
    rw [step_deliverToMain_worker]

/-- Claim C2: over any event trace, the ids returned by the scheduling calls
are exactly `0, 1, 2, ...` in call order — strictly increasing from 0, no
gaps (they equal `List.range` of the current counter), and pairwise distinct
for the whole lifetime of the instance (so an id is never reused, whether or
not its transaction has been removed). -/
theorem C2_timer_ids_sequential :
    ∀ as : List Act,
      (run initSys as).main.returnedIds = List.range (run initSys as).main.seq ∧
      (run initSys as).main.returnedIds.Nodup := by
  intro as
  have h5 := (sysInv_reach as).2.2.2.2
  exact ⟨h5, h5 ▸ List.nodup_range _⟩

/-- Claim C5: in every reachable state, a scheduling call allocates the fresh
id `seq` (not yet present in the registry), stores the transaction under it,
appends exactly one `SetTimerMessage {id, type, duration}` to the worker
channel, touches nothing else, and returns the id at once; the intermediate
state `mid` exhibits the registry store happening before the send. -/
theorem C5_setTimer_contract :
    ∀ (as : List Act) (k : TimerKind) (f d : Nat) (ar : List Nat),
      (setTimer k f d ar (run initSys as)).1 = (run initSys as).main.seq ∧
      mapGet (run initSys as).main.idMap (setTimer k f d ar (run initSys as)).1 = none ∧
      mapGet (setTimer k f d ar (run initSys as)).2.main.idMap
          (setTimer k f d ar (run initSys as)).1
        = some ⟨(setTimer k f d ar (run initSys as)).1, k, f, d, ar⟩ ∧
      (setTimer k f d ar (run initSys as)).2.toWorker
        = (run initSys as).toWorker
            ++ [.setTimer (setTimer k f d ar (run initSys as)).1 k d] ∧
      (setTimer k f d ar (run initSys as)).2.toMain = (run initSys as).toMain ∧
      (setTimer k f d ar (run initSys as)).2.log = (run initSys as).log ∧
      (setTimer k f d ar (run initSys as)).2.worker = (run initSys as).worker ∧
      (setTimer k f d ar (run initSys as)).2.main.seq = (run initSys as).main.seq + 1 ∧
      (∃ mid : SysState,
        mid.main = (setTimer k f d ar (run initSys as)).2.main ∧
        mid.toWorker = (run initSys as).toWorker ∧
        (setTimer k f d ar (run initSys as)).2.toWorker
          = mid.toWorker ++ [.setTimer (setTimer k f d ar (run initSys as)).1 k d]) := by
  intro as k f d ar
  obtain ⟨h1, _, _, _, _⟩ := sysInv_reach as
  refine ⟨rfl, ?_, ?_, rfl, rfl, rfl, rfl, rfl, ?_⟩
  · rw [mapGet_eq_none_iff]
    intro p hp
    exact Nat.ne_of_lt (h1 p hp).2
  · show mapGet (mapSet (run initSys as).main.idMap (run initSys as).main.seq _) _ = _
    rw [mapGet_mapSet,
      if_pos (show (run initSys as).main.seq = (setTimer k f d ar (run initSys as)).1 from rfl)]
    rfl
  · exact ⟨{ (setTimer k f d ar (run initSys as)).2 with
      toWorker := (run initSys as).toWorker }, rfl, rfl, rfl⟩

/-- Claim C7: a main-bound message (invoke or clear) whose id has no active
transaction leaves the state entirely unchanged — no callback is invoked, no
error is raised, the registry is untouched. -/
theorem C7_unknown_id_dropped :
    ∀ (s : SysState) (m : MessageFromWorker),
      mapGet s.main.idMap m.msgId = none → mainOnMessage s m = s := by
  intro s m h
  unfold mainOnMessage
  rw [h]

/-- Witness for C7: the empty registry drops an invoke message for id 3. -/
theorem C7_witness : mainOnMessage initSys (.invoke 3) = initSys :=
  C7_unknown_id_dropped initSys (.invoke 3) rfl

/-- Claim C3: when the main listener processes an invoke notification for an
id with an active transaction, the stored callback is invoked with the stored
arguments within that same handling step (the log grows by exactly that one
invocation); a `setTimeout` transaction is always removed afterwards, a
`setInterval` transaction is never removed (the registry is unchanged). -/
theorem C3_fired_dispatch :
    ∀ (as : List Act) (i : TimerId) (t : TimerTransaction),
      mapGet (run initSys as).main.idMap i = some t →
      (mainOnMessage (run initSys as) (.invoke i)).log
        = (run initSys as).log ++ [(t.id, t.func, t.args)] ∧
      (t.kind = .setTimeout →
        mapGet (mainOnMessage (run initSys as) (.invoke i)).main.idMap i = none) ∧
      (t.kind = .setInterval →
        (mainOnMessage (run initSys as) (.invoke i)).main.idMap
          = (run initSys as).main.idMap) := by
  intro as i t hg
  obtain ⟨h1, _, _, _, _⟩ := sysInv_reach as
  have hid : t.id = i := (h1 _ (mem_of_mapGet _ _ _ hg)).1
  unfold mainOnMessage
  have hmsg : (MessageFromWorker.invoke i).msgId = i := rfl
  rw [hmsg, hg]
  dsimp only
  cases t.kind with
  | setTimeout =>
    dsimp only
    refine ⟨rfl, fun _ => ?_, fun hc => ?_⟩
    · rw [hid, mapGet_mapDelete, if_pos rfl]
    · exact absurd hc (by simp)
  | setInterval =>
    dsimp only
    refine ⟨rfl, fun hc => ?_, fun _ => rfl⟩
    · exact absurd hc (by simp)

/-- Witness for C3: after scheduling one `setTimeout`, the invoke message for
id 0 logs the invocation of callback 5 with arguments `[]`. -/
theorem C3_witness :
    (mainOnMessage (run initSys [Act.set .setTimeout 5 10 []]) (.invoke 0)).log
      = (run initSys [Act.set .setTimeout 5 10 []]).log ++ [(0, 5, [])] ∧
    (TimerKind.setTimeout = TimerKind.setTimeout →
      mapGet (mainOnMessage (run initSys [Act.set .setTimeout 5 10 []])
        (.invoke 0)).main.idMap 0 = none) ∧
    (TimerKind.setTimeout = TimerKind.setInterval →
      (mainOnMessage (run initSys [Act.set .setTimeout 5 10 []]) (.invoke 0)).main.idMap
        = (run initSys [Act.set .setTimeout 5 10 []]).main.idMap) :=
  C3_fired_dispatch [Act.set .setTimeout 5 10 []] 0 ⟨0, .setTimeout, 5, 10, []⟩ (by decide)

/-! ## Cancelled ids stay dead (for claim C4) -/

/-- An id is dead in a state when it has already been allocated, has no
active transaction, and has never had an invocation logged.  Dead ids stay
dead under every event. -/
def DeadId (i : TimerId) (s : SysState) : Prop :=
  i < s.main.seq ∧ mapGet s.main.idMap i = none ∧ ∀ e ∈ s.log, e.1 ≠ i

theorem step_deliverToWorker_log (s : SysState) :
    (step s .deliverToWorker).log = s.log := by
  unfold step
  cases hq : s.toWorker <;> rfl

theorem step_fire_log (s : SysState) (h : Nat) :
    (step s (.fire h)).log = s.log :=
  nativeFire_log h s

theorem deadId_mainOnMessage (i : TimerId) (s : SysState) (m : MessageFromWorker)
    (hkey : ∀ p ∈ s.main.idMap, p.2.id = p.1)
    (hd : DeadId i s) : DeadId i (mainOnMessage s m) := by
  obtain ⟨hlt, hnone, hlog⟩ := hd
  unfold mainOnMessage
  cases hg : mapGet s.main.idMap m.msgId with
  | none => exact ⟨hlt, hnone, hlog⟩
  | some t =>
    dsimp only
    have hne : t.id ≠ i := by
      intro hti
      have hmm : m.msgId ≠ i := by
        intro h
        rw [h, hnone] at hg
        exact Option.noConfusion hg
      have hti2 : t.id = m.msgId := hkey _ (mem_of_mapGet _ _ _ hg)
      exact hmm (by rw [← hti2]; exact hti)
    have hlog1 : ∀ e ∈ s.log ++ [(t.id, t.func, t.args)], e.1 ≠ i := by
      intro e he
      rcases List.mem_append.1 he with h | h
      · exact hlog e h
      · rw [List.mem_singleton] at h
        rw [h]
        exact hne
    have hdel : ∀ j, mapGet (mapDelete s.main.idMap j) i = none := by
      intro j
      rw [mapGet_mapDelete]
      by_cases h : j = i
      · rw [if_pos h]
      · rw [if_neg h]
        exact hnone
    cases m with
    | invoke j =>
      dsimp only
      cases t.kind with
      | setTimeout => exact ⟨hlt, hdel t.id, hlog1⟩
      | setInterval => exact ⟨hlt, hnone, hlog1⟩
    | clear j =>
      dsimp only
      exact ⟨hlt, hdel j, hlog⟩

theorem deadId_step (i : TimerId) (s : SysState) (a : Act)
    (hInv : SysInv s) (hd : DeadId i s) : DeadId i (step s a) := by
  obtain ⟨h1, h2, h3, h4, h5⟩ := hInv
  obtain ⟨hlt, hnone, hlog⟩ := hd
  cases a with
  | set k f d ar =>
    refine ⟨Nat.lt_succ_of_lt hlt, ?_, hlog⟩
    show mapGet (mapSet s.main.idMap s.main.seq _) i = none
    rw [mapGet_mapSet, if_neg (Nat.ne_of_gt hlt)]
    exact hnone
  | clear ck j =>
    refine ⟨hlt, ?_, hlog⟩
    show mapGet (mapDelete s.main.idMap j) i = none
    rw [mapGet_mapDelete]
    by_cases h : j = i
    · rw [if_pos h]
    · rw [if_neg h]
      exact hnone
  | deliverToWorker =>
    refine ⟨?_, ?_, ?_⟩
    · rw [step_deliverToWorker_main]
      exact hlt
    · rw [step_deliverToWorker_main]
      exact hnone
    · intro e he
      rw [step_deliverToWorker_log] at he
      exact hlog e he
  | deliverToMain =>
    show DeadId i (step s .deliverToMain)
    unfold step
    cases s.toMain with
    | nil => exact ⟨hlt, hnone, hlog⟩
    | cons m rest =>
      exact deadId_mainOnMessage i { s with toMain := rest } m
        (fun p hp => (h1 p hp).1) ⟨hlt, hnone, hlog⟩
  | fire h =>
    refine ⟨?_, ?_, ?_⟩
    · rw [step_fire_main]
      exact hlt
    · rw [step_fire_main]
      exact hnone
    · intro e he
      rw [step_fire_log] at he
      exact hlog e he

theorem deadId_run (i : TimerId) (s : SysState) (bs : List Act)
    (hInv : SysInv s) (hd : DeadId i s) : DeadId i (run s bs) := by
  induction bs generalizing s with
  | nil => exact hd
  | cons a bs ih => exact ih _ (sysInv_step s a hInv) (deadId_step i s a hInv hd)

/-- Claim C4: starting from any reachable state, scheduling a timer and then
immediately cancelling the returned id — with no invoke processed on the main
side in between — means the callback for that id is never invoked in any
subsequent reachable state, whatever events (deliveries in any interleaving,
native fires, further API calls) happen afterwards: the invocation log never
contains an entry for that id. -/
theorem C4_cancel_before_fire_never_invokes :
    ∀ (as : List Act) (k : TimerKind) (f d : Nat) (ar : List Nat)
      (ck : ClearKind) (bs : List Act),
      ((run (clearTimer ck (setTimer k f d ar (run initSys as)).1
          (setTimer k f d ar (run initSys as)).2) bs).log).filter
        (fun e => e.1 == (setTimer k f d ar (run initSys as)).1) = [] := by
  intro as k f d ar ck bs
  have hInv0 := sysInv_reach as
  have hInv1 := sysInv_setTimer k f d ar (run initSys as) hInv0
  have hInv2 := sysInv_clearTimer ck (setTimer k f d ar (run initSys as)).1
    (setTimer k f d ar (run initSys as)).2 hInv1
  have hd2 : DeadId (setTimer k f d ar (run initSys as)).1
      (clearTimer ck (setTimer k f d ar (run initSys as)).1
        (setTimer k f d ar (run initSys as)).2) := by
    refine ⟨Nat.lt_succ_self _, ?_, ?_⟩
    · show mapGet (mapDelete _ _) _ = none
      rw [mapGet_mapDelete, if_pos rfl]
    · intro e he
      exact Nat.ne_of_lt (hInv0.2.1 e he)
  have hd := deadId_run _ _ bs hInv2 hd2
  rw [List.filter_eq_nil_iff]
  intro e he
  simpa using hd.2.2 e he

/-- Claim C6: on a `SetTimerMessage` the worker schedules a native timer of
the message's kind whose callback posts `invoke` with the same id — and, only
for `setTimeout`, also removes the worker-side entry for the id when it fires
(a one-shot native timer is also consumed); the returned native handle is
stored keyed by the id. -/
theorem C6_worker_schedule_and_fire :
    (∀ (w : WorkerState) (i : TimerId) (k : TimerKind) (d : Nat),
      mapGet (workerOnMessage w (.setTimer i k d)).idMap i = some w.nextHandle ∧
      mapGet (workerOnMessage w (.setTimer i k d)).native w.nextHandle = some ⟨i, k⟩ ∧
      (workerOnMessage w (.setTimer i k d)).nextHandle = w.nextHandle + 1) ∧
    (∀ (s : SysState) (h : Nat) (i : TimerId) (k : TimerKind),
      mapGet s.worker.native h = some ⟨i, k⟩ →
      (nativeFire h s).toMain = s.toMain ++ [.invoke i] ∧
      (k = .setTimeout →
        mapGet (nativeFire h s).worker.idMap i = none ∧
        mapGet (nativeFire h s).worker.native h = none) ∧
      (k = .setInterval → (nativeFire h s).worker = s.worker)) := by
  constructor
  · intro w i k d
    refine ⟨?_, ?_, rfl⟩
    · show mapGet (mapSet w.idMap i w.nextHandle) i = some w.nextHandle
      rw [mapGet_mapSet, if_pos rfl]
    · show mapGet (mapSet w.native w.nextHandle ⟨i, k⟩) w.nextHandle = some ⟨i, k⟩
      rw [mapGet_mapSet, if_pos rfl]
  · intro s h i k hg
    unfold nativeFire
    rw [hg]
    dsimp only
    cases k with
    | setTimeout =>
      refine ⟨rfl, fun _ => ⟨?_, ?_⟩, fun hc => absurd hc (by simp)⟩
      · show mapGet (mapDelete s.worker.idMap i) i = none
        rw [mapGet_mapDelete, if_pos rfl]
      · show mapGet (mapDelete s.worker.native h) h = none
        rw [mapGet_mapDelete, if_pos rfl]
    | setInterval =>
      exact ⟨rfl, fun hc => absurd hc (by simp), fun _ => rfl⟩

/-- Witness for C6: scheduling one `setTimeout` for id 0 in the worker and
firing native handle 0 posts `invoke 0` and clears both worker entries. -/
theorem C6_witness :
    (nativeFire 0 (run initSys [Act.set .setTimeout 5 9 [], .deliverToWorker])).toMain
      = (run initSys [Act.set .setTimeout 5 9 [], .deliverToWorker]).toMain
          ++ [.invoke 0] ∧
    (TimerKind.setTimeout = TimerKind.setTimeout →
      mapGet (nativeFire 0 (run initSys
        [Act.set .setTimeout 5 9 [], .deliverToWorker])).worker.idMap 0 = none ∧
      mapGet (nativeFire 0 (run initSys
        [Act.set .setTimeout 5 9 [], .deliverToWorker])).worker.native 0 = none) ∧
    (TimerKind.setTimeout = TimerKind.setInterval →
      (nativeFire 0 (run initSys [Act.set .setTimeout 5 9 [], .deliverToWorker])).worker
        = (run initSys [Act.set .setTimeout 5 9 [], .deliverToWorker]).worker) :=
  C6_worker_schedule_and_fire.2
    (run initSys [Act.set .setTimeout 5 9 [], .deliverToWorker]) 0 0 .setTimeout (by decide)

/-- Claim C8: a cancel call always posts exactly one `ClearTimerMessage
{id, type}` and removes the transaction for the id (other ids untouched,
nothing else changes); with no transaction present the registry is left
literally unchanged and no error is raised; cancelling twice has the same
effect as cancelling once on the main-side state, and the duplicate clear
message is a no-op for the worker (whose registry no longer has the id). -/
theorem C8_clear_idempotent :
    (∀ (s : SysState) (ck : ClearKind) (i : TimerId),
      (clearTimer ck i s).toWorker = s.toWorker ++ [.clearTimer i ck] ∧
      mapGet (clearTimer ck i s).main.idMap i = none ∧
      (∀ j, j ≠ i → mapGet (clearTimer ck i s).main.idMap j = mapGet s.main.idMap j) ∧
      (clearTimer ck i s).log = s.log ∧
      (clearTimer ck i s).worker = s.worker ∧
      (clearTimer ck i s).toMain = s.toMain ∧
      (clearTimer ck i s).main.seq = s.main.seq) ∧
    (∀ (s : SysState) (ck : ClearKind) (i : TimerId),
      mapGet s.main.idMap i = none →
      (clearTimer ck i s).main.idMap = s.main.idMap) ∧
    (∀ (s : SysState) (ck : ClearKind) (i : TimerId),
      (clearTimer ck i (clearTimer ck i s)).main = (clearTimer ck i s).main) ∧
    (∀ (w : WorkerState) (ck : ClearKind) (i : TimerId),
      mapGet w.idMap i = none →
      workerOnMessage w (.clearTimer i ck) = w) := by
  refine ⟨?_, ?_, ?_, ?_⟩
  · intro s ck i
    refine ⟨rfl, ?_, ?_, rfl, rfl, rfl, rfl⟩
    · show mapGet (mapDelete s.main.idMap i) i = none
      rw [mapGet_mapDelete, if_pos rfl]
    · intro j hj
      show mapGet (mapDelete s.main.idMap i) j = _
      rw [mapGet_mapDelete, if_neg (fun h => hj h.symm)]
  · intro s ck i h
    show mapDelete s.main.idMap i = s.main.idMap
    exact mapDelete_of_get_none _ _ h
  · intro s ck i
    show ({ (clearTimer ck i s).main with
      idMap := mapDelete (clearTimer ck i s).main.idMap i } : MainState) = _
    rw [show (clearTimer ck i s).main.idMap = mapDelete s.main.idMap i from rfl,
      mapDelete_mapDelete]
    rfl
  · intro w ck i h
    unfold workerOnMessage
    dsimp only
    rw [h]
    dsimp only
    rw [mapDelete_of_get_none _ _ h]

/-- Witness for C8: cancelling id 5 on a fresh instance leaves the empty
registry unchanged, and the duplicate clear message is a worker no-op. -/
theorem C8_witness :
    (clearTimer .clearTimeout 5 initSys).main.idMap = initSys.main.idMap ∧
    mapGet (clearTimer .clearTimeout 5 initSys).main.idMap 7
      = mapGet initSys.main.idMap 7 ∧
    workerOnMessage initSys.worker (.clearTimer 5 .clearTimeout) = initSys.worker :=
  ⟨C8_clear_idempotent.2.1 initSys .clearTimeout 5 rfl,
   (C8_clear_idempotent.1 initSys .clearTimeout 5).2.2.1 7 (by decide),
   C8_clear_idempotent.2.2.2 initSys.worker .clearTimeout 5 rfl⟩

/-! ## Worker construction (from `src/createWorker.ts`) -/

/-- The two construction strategies of `createWorker`: a data-URL-backed
script (`createWorkerWithDataUrl`) and a blob-URL-backed script
(`createWorkerWithBlob`). -/
inductive WorkerStrategy where
  | dataUrl
  | blobUrl
deriving DecidableEq, Repr

/-- `createWorker(f, options)`: `try { return createWorkerWithDataUrl(f,
options) } catch (e) { return createWorkerWithBlob(f, options) }`.  The two
strategies are opaque host calls, embedded by their outcomes (`.ok worker`
or `.error e`, both opaque values); the returned trace lists the strategies
actually invoked, in order. -/
def createWorker (dataUrlOutcome blobOutcome : Except Nat Nat) :
    Except Nat Nat × List WorkerStrategy :=
  match dataUrlOutcome with
  | .ok w => (.ok w, [.dataUrl])
  | .error _ => (blobOutcome, [.dataUrl, .blobUrl])

/-- Claim C9: `createWorker` always tries the data-URL strategy first; the
blob strategy is invoked if and only if the data-URL strategy throws; a
data-URL success is returned as-is, and when both strategies throw, the blob
strategy's error propagates to the caller. -/
theorem C9_createWorker_fallback :
    ∀ a b : Except Nat Nat,
      (createWorker a b).2.head? = some .dataUrl ∧
      (WorkerStrategy.blobUrl ∈ (createWorker a b).2 ↔ ∃ e, a = .error e) ∧
      (∀ w, a = .ok w → createWorker a b = (.ok w, [.dataUrl])) ∧
      (∀ e e', a = .error e → b = .error e' → (createWorker a b).1 = .error e') := by
  intro a b
  cases a with
  | ok w =>
    refine ⟨rfl, ?_, ?_, ?_⟩
    · simp [createWorker]
    · intro w' hw
      rw [show Except.ok w = Except.ok w' from hw]
      rfl
    · intro e e' he
      exact absurd he (by simp)
  | error e =>
    refine ⟨rfl, ?_, ?_, ?_⟩
    · simp [createWorker]
    · intro w' hw
      exact absurd hw (by simp)
    · intro e0 e' _ hb
      rw [show (createWorker (Except.error e) b).1 = b from rfl, hb]

/-- Witness for C9: both strategies failing (errors 0 and 1) yields error 1,
the blob strategy's error, to the caller. -/
theorem C9_witness : (createWorker (.error 0) (.error 1)).1 = .error 1 :=
  (C9_createWorker_fallback (.error 0) (.error 1)).2.2.2 0 1 rfl rfl

/-! ## Module-level singleton (from the bottom of `src/index.ts`) -/

/-- One `WorkerTimer` instance as held by a caller: its protocol state plus
whether `worker.terminate()` has been called on it. -/
structure InstState where
  sys : SysState
  terminated : Bool
deriving DecidableEq, Repr

/-- Module-scope state: the `defaultWorkerTimer` variable (an instance id or
`null`), the created instances, a fresh-instance counter, and the ghost
`spawnCount` counting worker spawns (`createWorker` calls). -/
structure ModuleState where
  defaultWorkerTimer : Option Nat
  instances : List (Nat × InstState)
  nextInst : Nat
  spawnCount : Nat
deriving DecidableEq, Repr

/-- Module state before any bare function has been called. -/
def initModule : ModuleState :=
  { defaultWorkerTimer := none, instances := [], nextInst := 0, spawnCount := 0 }

/-- `createWorkerTimer()`: spawns a worker (counted in `spawnCount`) and
returns a fresh instance with empty registries. -/
def createWorkerTimer (m : ModuleState) : Nat × ModuleState :=
  (m.nextInst,
   { m with
     instances := mapSet m.instances m.nextInst ⟨initSys, false⟩
     nextInst := m.nextInst + 1
     spawnCount := m.spawnCount + 1 })

/-- `getWorkerTimer()`: `if (defaultWorkerTimer == null) { defaultWorkerTimer
= createWorkerTimer() } return defaultWorkerTimer`. -/
def getWorkerTimer (m : ModuleState) : Nat × ModuleState :=
  match m.defaultWorkerTimer with
  | some i => (i, m)
  | none =>
    let r := createWorkerTimer m
    (r.1, { r.2 with defaultWorkerTimer := some r.1 })

/-- Run an action on one instance of the module state.  The `none` branch is
unreachable: the default id always names a created instance. -/
def onDefaultInst (m : ModuleState) (i : Nat) (g : InstState → InstState) :
    ModuleState :=
  match mapGet m.instances i with
  | some ist => { m with instances := mapSet m.instances i (g ist) }
  | none => m

/-- Bare `setTimeout(...)`: `getWorkerTimer().setTimeout(...)`. -/
def setTimeout (f d : Nat) (ar : List Nat) (m : ModuleState) : TimerId × ModuleState :=
  let r := getWorkerTimer m
  match mapGet r.2.instances r.1 with
  | some ist =>
    let st := setTimer .setTimeout f d ar ist.sys
    (st.1, { r.2 with instances := mapSet r.2.instances r.1 { ist with sys := st.2 } })
  | none => (0, r.2)

/-- Bare `setInterval(...)`: `getWorkerTimer().setInterval(...)`. -/
def setInterval (f d : Nat) (ar : List Nat) (m : ModuleState) : TimerId × ModuleState :=
  let r := getWorkerTimer m
  match mapGet r.2.instances r.1 with
  | some ist =>
    let st := setTimer .setInterval f d ar ist.sys
    (st.1, { r.2 with instances := mapSet r.2.instances r.1 { ist with sys := st.2 } })
  | none => (0, r.2)

/-- Bare `clearTimeout(id)`: `getWorkerTimer().clearTimeout(id)`. -/
def clearTimeout (i : TimerId) (m : ModuleState) : ModuleState :=
  let r := getWorkerTimer m
  onDefaultInst r.2 r.1 (fun ist => { ist with sys := clearTimer .clearTimeout i ist.sys })

/-- Bare `clearInterval(id)`: `getWorkerTimer().clearInterval(id)`. -/
def clearInterval (i : TimerId) (m : ModuleState) : ModuleState :=
  let r := getWorkerTimer m
  onDefaultInst r.2 r.1 (fun ist => { ist with sys := clearTimer .clearInterval i ist.sys })

/-- Bare `terminate()`: `getWorkerTimer().terminate()`. -/
def terminate (m : ModuleState) : ModuleState :=
  let r := getWorkerTimer m
  onDefaultInst r.2 r.1 (fun ist => { ist with terminated := true })

theorem getWorkerTimer_of_some (m : ModuleState) (i : Nat)
    (h : m.defaultWorkerTimer = some i) : getWorkerTimer m = (i, m) := by
  unfold getWorkerTimer
  rw [h]

theorem onDefaultInst_defaultWorkerTimer (m : ModuleState) (i : Nat)
    (g : InstState → InstState) :
    (onDefaultInst m i g).defaultWorkerTimer = m.defaultWorkerTimer := by
  unfold onDefaultInst
  cases mapGet m.instances i <;> rfl

theorem onDefaultInst_spawnCount (m : ModuleState) (i : Nat)
    (g : InstState → InstState) :
    (onDefaultInst m i g).spawnCount = m.spawnCount := by
  unfold onDefaultInst
  cases mapGet m.instances i <;> rfl

/-- Claim C10: the module singleton is created at most once and never reset.
With the default already set to instance `i`, `getWorkerTimer` returns `i`
without touching the state, and each of the five bare functions keeps the
default at `i` and spawns no new worker.  With the default unset,
`getWorkerTimer` creates the instance (spawning exactly one worker) and sets
the default to it.  In particular a bare `terminate()` as the very first call
creates instance 0 (one worker spawned), terminates that instance, and every
later bare call still routes to instance 0. -/
theorem C10_lazy_singleton :
    (∀ (m : ModuleState) (i : Nat),
      m.defaultWorkerTimer = some i → getWorkerTimer m = (i, m)) ∧
    (∀ m : ModuleState, m.defaultWorkerTimer = none →
      (getWorkerTimer m).1 = m.nextInst ∧
      (getWorkerTimer m).2.defaultWorkerTimer = some m.nextInst ∧
      (getWorkerTimer m).2.spawnCount = m.spawnCount + 1 ∧
      mapGet (getWorkerTimer m).2.instances m.nextInst = some ⟨initSys, false⟩) ∧
    (∀ (m : ModuleState) (i : Nat), m.defaultWorkerTimer = some i →
      ∀ (f d : Nat) (ar : List Nat) (j : TimerId),
        (setTimeout f d ar m).2.defaultWorkerTimer = some i ∧
        (setInterval f d ar m).2.defaultWorkerTimer = some i ∧
        (clearTimeout j m).defaultWorkerTimer = some i ∧
        (clearInterval j m).defaultWorkerTimer = some i ∧
        (terminate m).defaultWorkerTimer = some i ∧
        (setTimeout f d ar m).2.spawnCount = m.spawnCount ∧
        (setInterval f d ar m).2.spawnCount = m.spawnCount ∧
        (clearTimeout j m).spawnCount = m.spawnCount ∧
        (clearInterval j m).spawnCount = m.spawnCount ∧
        (terminate m).spawnCount = m.spawnCount) ∧
    ((terminate initModule).defaultWorkerTimer = some 0 ∧
      (terminate initModule).spawnCount = 1 ∧
      mapGet (terminate initModule).instances 0 = some ⟨initSys, true⟩ ∧
      getWorkerTimer (terminate initModule) = (0, terminate initModule)) := by
  refine ⟨getWorkerTimer_of_some, ?_, ?_, ?_⟩
  · intro m h
    unfold getWorkerTimer
    rw [h]
    dsimp only [createWorkerTimer]
    refine ⟨rfl, rfl, rfl, ?_⟩
    show mapGet (mapSet m.instances m.nextInst _) m.nextInst = _
    rw [mapGet_mapSet, if_pos rfl]
  · intro m i h f d ar j
    have hrw := getWorkerTimer_of_some m i h
    refine ⟨?_, ?_, ?_, ?_, ?_, ?_, ?_, ?_, ?_, ?_⟩
    · unfold setTimeout
      rw [hrw]
      dsimp only
      cases mapGet m.instances i <;> exact h
    · unfold setInterval
      rw [hrw]
      dsimp only
      cases mapGet m.instances i <;> exact h
    · unfold clearTimeout
      rw [hrw]
      dsimp only
      rw [onDefaultInst_defaultWorkerTimer]
      exact h
    · unfold clearInterval
      rw [hrw]
      dsimp only
      rw [onDefaultInst_defaultWorkerTimer]
      exact h
    · unfold terminate
      rw [hrw]
      dsimp only
      rw [onDefaultInst_defaultWorkerTimer]
      exact h
    · unfold setTimeout
      rw [hrw]
      dsimp only
      cases mapGet m.instances i <;> rfl
    · unfold setInterval
      rw [hrw]
      dsimp only
      cases mapGet m.instances i <;> rfl
    · unfold clearTimeout
      rw [hrw]
      dsimp only
      rw [onDefaultInst_spawnCount]
    · unfold clearInterval
      rw [hrw]
      dsimp only
      rw [onDefaultInst_spawnCount]
    · unfold terminate
      rw [hrw]
      dsimp only
      rw [onDefaultInst_spawnCount]
  · exact ⟨by decide, by decide, by decide, by decide⟩

/-- Witness for C10: after the first bare call the default is instance 0, and
a bare `setTimeout` preserves the default and spawns no worker. -/
theorem C10_witness :
    getWorkerTimer (terminate initModule) = (0, terminate initModule) ∧
    (setTimeout 5 10 [] (terminate initModule)).2.defaultWorkerTimer = some 0 ∧
    (setTimeout 5 10 [] (terminate initModule)).2.spawnCount
      = (terminate initModule).spawnCount :=
  ⟨C10_lazy_singleton.1 (terminate initModule) 0 (by decide),
   (C10_lazy_singleton.2.2.1 (terminate initModule) 0 (by decide) 5 10 [] 0).1,
   (C10_lazy_singleton.2.2.1 (terminate initModule) 0 (by decide) 5 10 [] 0).2.2.2.2.2.1⟩
